import Mathlib

/-!
Verification of the Backend/Keep/Thread core of an isolated-execution
loader, embedded shallowly from `src/backend/mod.rs`.  The trait methods
with bodies (`Backend::have`) are translated directly; the trait-object
run-loop (`Thread::enter`) and ownership behaviour have no implementation
in the file, so those parts are modelled from the specification and are
marked as such in their doc comments.
-/

/-- One capability check result, embedded from `struct Datum` in
`src/backend/mod.rs` (fields `name`, `pass`, `info`, `mesg`). -/
structure Datum where
  name : String
  pass : Bool
  info : Option String
  mesg : Option String

/-- The body of the provided method `Backend::have`, verbatim from
`src/backend/mod.rs` line 26:
`!self.data().iter().fold(false, |e, d| e | !d.pass)`,
as a function of the `Vec<Datum>` returned by `data()`. -/
def haveFold (data : List Datum) : Bool :=
  !(data.foldl (fun e d => e || !d.pass) false)

/-- Modelled from the spec: `Component` lives in `crate::binary` (not under
`src/`); the spec calls it "an opaque descriptor of one piece of code/data
to be loaded into the keep", so it is embedded as an uninterpreted payload. -/
structure Component where
  payload : List Nat

/-- A filesystem path for the optional control socket (`Option<&Path>`). -/
abbrev HostPath := String

/-- Modelled from the spec: construction errors of `build` (§4.2/§7),
surfaced on the error side of the returned `Result`. -/
inductive BuildError where
  | construction (msg : String)

/-- Modelled from the spec: a shared-ownership handle to a running keep,
standing for the `Arc<dyn Keep>` returned by `build` (the concrete `Keep`
implementations live outside `src/`). -/
structure KeepHandle where
  keepId : Nat

/-- One isolation-technology backend, embedding `trait Backend` from
`src/backend/mod.rs`: `name()`, `data()` and `build(code: Component,
sock: Option<&Path>) -> Result<Arc<dyn Keep>>`. -/
structure BackendImpl where
  name : String
  data : List Datum
  build : Component → Option HostPath → Except BuildError KeepHandle

/-- The provided method `Backend::have` of `src/backend/mod.rs`, over the
embedded backend. -/
def BackendImpl.haveSupport (b : BackendImpl) : Bool :=
  !(b.data.foldl (fun e d => e || !d.pass) false)

/-- Replace the `pass` field of the datum at position `i` by `false`,
leaving every other datum unchanged (the perturbation used by the
single-failure property of §8). -/
def failAt : List Datum → Nat → List Datum
  | [], _ => []
  | d :: rest, 0 => { d with pass := false } :: rest
  | d :: rest, n + 1 => d :: failAt rest n

lemma foldl_or_not_pass (l : List Datum) (e : Bool) :
    l.foldl (fun e d => e || !d.pass) e = (e || l.any fun d => !d.pass) := by
  induction l generalizing e with
  | nil => simp
  | cons d rest ih => simp [List.foldl_cons, List.any_cons, ih, Bool.or_assoc]

lemma not_any_not_pass (l : List Datum) :
    (!(l.any fun d => !d.pass)) = l.all fun d => d.pass := by
  induction l with
  | nil => rfl
  | cons d rest ih => simp [List.any_cons, List.all_cons, Bool.not_or, ih]

lemma haveFold_eq_all (l : List Datum) :
    haveFold l = l.all fun d => d.pass := by
  rw [haveFold, foldl_or_not_pass, Bool.false_or, not_any_not_pass]

lemma haveSupport_eq_haveFold (b : BackendImpl) :
    b.haveSupport = haveFold b.data := rfl

/-- C1: for every Backend, `have()` is true iff every `Datum` in `data()`
has `pass = true`. -/
theorem have_iff_all_pass (b : BackendImpl) :
    b.haveSupport = true ↔ ∀ d ∈ b.data, d.pass = true := by
  rw [haveSupport_eq_haveFold, haveFold_eq_all]
  simp [List.all_eq_true]

/-- C2: a Backend whose `data()` is the empty sequence has `have() = true`
(the fold over an empty sequence is vacuously passing). -/
theorem have_true_on_empty_data (b : BackendImpl) (h : b.data = []) :
    b.haveSupport = true := by
  rw [haveSupport_eq_haveFold, h]
  rfl

/-- A backend reporting zero capability checks, used to exercise the
vacuous-truth case of `have()`. -/
def emptyBackend : BackendImpl :=
  { name := "empty"
    data := []
    build := fun _ _ => Except.error (BuildError.construction "unsupported") }

/-- Witness for C2 at the concrete backend with `data() = []`. -/
theorem have_true_on_empty_data_witness :
    emptyBackend.data = [] ∧ emptyBackend.haveSupport = true :=
  ⟨rfl, have_true_on_empty_data emptyBackend rfl⟩

/-- C3: if `have()` is true of a Datum sequence, flipping the `pass` field
of any single Datum to `false` makes `have()` false. -/
theorem have_single_failure_flips (l : List Datum) (i : Nat)
    (hi : i < l.length) (hall : haveFold l = true) :
    haveFold (failAt l i) = false := by
  induction l generalizing i with
  | nil => exact absurd hi (by simp)
  | cons d rest ih =>
    rw [haveFold_eq_all] at hall
    cases i with
    | zero =>
      simp [failAt, haveFold_eq_all, List.all_cons]
    | succ n =>
      have hrest : haveFold rest = true := by
        rw [haveFold_eq_all]
        simp only [List.all_cons, Bool.and_eq_true] at hall
        exact hall.2
      have hn : n < rest.length := Nat.lt_of_succ_lt_succ (by simpa using hi)
      have := ih n hn hrest
      rw [haveFold_eq_all] at this ⊢
      simp [failAt, List.all_cons, this]

/-- A single passing capability check, used by concrete witnesses. -/
def datumPass : Datum :=
  { name := "check", pass := true, info := none, mesg := none }

/-- Witness for C3 on the one-element sequence `[datumPass]` at index 0. -/
theorem have_single_failure_flips_witness :
    (0 < [datumPass].length ∧ haveFold [datumPass] = true) ∧
      haveFold (failAt [datumPass] 0) = false :=
  ⟨⟨by decide, rfl⟩, have_single_failure_flips [datumPass] 0 (by decide) rfl⟩

lemma all_pass_eq_all_map (l : List Datum) :
    (l.all fun d => d.pass) = ((l.map Datum.pass).all fun b => b) := by
  induction l with
  | nil => rfl
  | cons d rest ih => simp [List.all_cons, List.map_cons, ih]

lemma perm_all_id_eq (bs cs : List Bool) (h : List.Perm bs cs) :
    (bs.all fun b => b) = (cs.all fun b => b) := by
  induction h with
  | nil => rfl
  | cons x _ ih => simp [List.all_cons, ih]
  | swap x y l => simp [List.all_cons, Bool.and_left_comm]
  | trans _ _ ih₁ ih₂ => exact ih₁.trans ih₂

/-- C10: `have()` depends only on the multiset of `pass` fields of the
Datum sequence: whenever the projections to `pass` are permutations of one
another (in particular when they are element-wise equal, whatever the
`name`, `info` and `mesg` fields are), the fold computes the same value. -/
theorem have_depends_only_on_pass_multiset (l l₂ : List Datum)
    (h : List.Perm (l.map Datum.pass) (l₂.map Datum.pass)) :
    haveFold l = haveFold l₂ := by
  rw [haveFold_eq_all, haveFold_eq_all, all_pass_eq_all_map, all_pass_eq_all_map l₂]
  exact perm_all_id_eq _ _ h

/-- A failing capability check with remediation text, for witnesses. -/
def datumFail : Datum :=
  { name := "cpu-feature", pass := false, info := some "absent"
    mesg := some "enable X in firmware" }

/-- A passing capability check with different metadata than `datumPass`. -/
def datumPass₂ : Datum :=
  { name := "kernel-feature", pass := true, info := some "ok", mesg := none }

/-- A failing capability check with different metadata than `datumFail`. -/
def datumFail₂ : Datum :=
  { name := "other-check", pass := false, info := none, mesg := none }

/-- Witness for C10: two sequences differing in every field except a
permuted `pass` multiset give the same `have()` value. -/
theorem have_depends_only_on_pass_multiset_witness :
    List.Perm ([datumPass, datumFail].map Datum.pass)
        ([datumFail₂, datumPass₂].map Datum.pass) ∧
      haveFold [datumPass, datumFail] = haveFold [datumFail₂, datumPass₂] :=
  ⟨List.Perm.swap false true [],
    have_depends_only_on_pass_multiset [datumPass, datumFail] [datumFail₂, datumPass₂]
      (List.Perm.swap false true [])⟩

/-- The shape of one parameter of an embedded trait-method signature:
either a single opaque `Component`, an ordered collection of them, or an
optional socket path. -/
inductive ParamShape where
  | component
  | componentList
  | optPath
deriving DecidableEq

/-- The shape of an embedded trait-method result. -/
inductive ResultShape where
  | resultKeep
deriving DecidableEq

/-- The parameter list of `Backend::build`, reified from its signature in
`src/backend/mod.rs` line 33:
`fn build(&self, code: Component, sock: Option<&Path>) -> Result<Arc<dyn Keep>>`
— the `code` argument is one single `Component`. -/
def buildParamShapes : List ParamShape :=
  [ParamShape.component, ParamShape.optPath]

/-- The result of `Backend::build`, reified from the same signature:
a `Result` carrying a shared-ownership `Keep` on success. -/
def buildResultShape : ResultShape :=
  ResultShape.resultKeep

/-- Following the spec's words, for comparison with `buildParamShapes`:
"`build(code: Component-set, sock: optional<path>)`" — a `code` argument
that is an ordered collection of Components. -/
def buildParamShapesSpec : List ParamShape :=
  [ParamShape.componentList, ParamShape.optPath]

/-- C4 counterexample: the signature of `Backend::build` in the source does
not take an ordered collection of Components — its `code` parameter is a
single `Component`, so the reified parameter list differs from the one the
spec describes. -/
theorem build_code_param_not_component_list :
    ¬ (buildParamShapes = buildParamShapesSpec) := by
  decide

/-- C4 (amended): `Backend::build` takes a single opaque `Component` as its
code argument, plus an optional socket path, and returns a `Result` that
carries a `Keep` handle on success (and a construction error on failure,
never a panic value). -/
theorem build_signature_single_component :
    buildParamShapes = [ParamShape.component, ParamShape.optPath] ∧
      buildResultShape = ResultShape.resultKeep ∧
      ∀ (b : BackendImpl) (c : Component) (p : Option HostPath),
        (∃ k, b.build c p = Except.ok k) ∨ ∃ e, b.build c p = Except.error e := by
  refine ⟨rfl, rfl, fun b c p => ?_⟩
  cases h : b.build c p with
  | ok k => exact Or.inl ⟨k, rfl⟩
  | error e => exact Or.inr ⟨e, rfl⟩

/-- Modelled from the spec: one marshalled syscall request (§6: "a syscall
number, an ordered argument list") — the byte layout is owned by the
external `sallyport` collaborator and is out of scope. -/
structure SyscallReq where
  num : Nat
  args : List Nat

/-- Modelled from the spec: the Shared Syscall Block (`crate::sallyport::Block`
is not under `src/`): a slot for at most one outstanding request and a
single return-value slot for the host's response. -/
structure Block where
  req : Option SyscallReq
  ret : Option Int

/-- The `Command` enum of `src/backend/mod.rs` lines 60-63: either
`SysCall` carrying the (exclusively borrowed) Shared Syscall Block, or
`Continue` with no payload. -/
inductive Command where
  | SysCall (block : Block)
  | Continue

/-- Modelled from the spec: the error taxonomy of `enter` (§4.4/§7); in the
source these travel on the error side of `anyhow::Result<Command>`. -/
inductive EnterError where
  | terminalState
  | fault
  | hostResource
deriving DecidableEq

/-- Modelled from the spec: the four reasons guest execution yields back to
the host during one `enter` call (§4.4 a-d). -/
inductive GuestEvent where
  | syscall (r : SyscallReq)
  | internal
  | exit (code : Nat)
  | fault

/-- Modelled from the spec: the observable lifecycle states of a Thread
between `enter` calls (§3); `Running` only exists transiently inside an
`enter` call, so it is not an observable inter-call state. -/
inductive ThreadPhase where
  | ready
  | awaitingService
  | exited
deriving DecidableEq

/-- Modelled from the spec: the state of one Thread, its lifecycle phase
together with its Shared Syscall Block. -/
structure ThreadState where
  phase : ThreadPhase
  block : Block

/-- Modelled from the spec: one `enter(&mut self) -> Result<Command>` call
(§4.4) — the concrete implementations live in the per-technology backends
outside `src/`.  Calling `enter` on an `exited` Thread fails with the
terminal-state error; otherwise, if the Thread was awaiting service the
host-serviced response is consumed (the block is cleared) before the guest
runs, and the guest's yield reason determines the returned Command and the
next phase. -/
def enterStep (s : ThreadState) (ev : GuestEvent) :
    Except EnterError Command × ThreadState :=
  if s.phase = ThreadPhase.exited then
    (Except.error EnterError.terminalState, s)
  else
    let b0 : Block :=
      if s.phase = ThreadPhase.awaitingService then { req := none, ret := none }
      else s.block
    match ev with
    | GuestEvent.syscall r =>
        let b1 : Block := { b0 with req := some r }
        (Except.ok (Command.SysCall b1), { phase := ThreadPhase.awaitingService, block := b1 })
    | GuestEvent.internal =>
        (Except.ok Command.Continue, { phase := ThreadPhase.ready, block := b0 })
    | GuestEvent.exit _ =>
        (Except.ok Command.Continue, { phase := ThreadPhase.exited, block := b0 })
    | GuestEvent.fault =>
        (Except.error EnterError.fault, { phase := ThreadPhase.exited, block := b0 })

/-- Drive one Thread through a sequence of guest events by successive
`enter` calls, collecting each call's `Result<Command>`. -/
def runThread : ThreadState → List GuestEvent →
    List (Except EnterError Command) × ThreadState
  | s, [] => ([], s)
  | s, ev :: rest =>
      let p := enterStep s ev
      let q := runThread p.2 rest
      (p.1 :: q.1, q.2)

/-- A freshly constructed Thread: never entered, empty block. -/
def initialThread : ThreadState :=
  { phase := ThreadPhase.ready, block := { req := none, ret := none } }

/-- C5: the `Command` enum has exactly the two variants `SysCall` (carrying
the Shared Syscall Block) and `Continue` (no payload), and every value of
`enter`'s result type is either an error or one of those two commands —
there is no third success variant. -/
theorem command_exactly_two_variants :
    (∀ c : Command, (∃ b, c = Command.SysCall b) ∨ c = Command.Continue) ∧
      ∀ r : Except EnterError Command,
        (∃ e, r = Except.error e) ∨ r = Except.ok Command.Continue ∨
          ∃ b, r = Except.ok (Command.SysCall b) := by
  constructor
  · intro c
    cases c with
    | SysCall b => exact Or.inl ⟨b, rfl⟩
    | Continue => exact Or.inr rfl
  · intro r
    cases r with
    | error e => exact Or.inl ⟨e, rfl⟩
    | ok c =>
        cases c with
        | SysCall b => exact Or.inr (Or.inr ⟨b, rfl⟩)
        | Continue => exact Or.inr (Or.inl rfl)

lemma runThread_exited (evs : List GuestEvent) (s : ThreadState)
    (h : s.phase = ThreadPhase.exited) :
    runThread s evs = (evs.map fun _ => Except.error EnterError.terminalState, s) := by
  induction evs with
  | nil => rfl
  | cons ev rest ih =>
      have hstep : enterStep s ev = (Except.error EnterError.terminalState, s) := by
        simp [enterStep, h]
      simp [runThread, hstep, ih]

/-- C6: once a Thread is in the `Exited` phase, every subsequent `enter`
call returns the terminal-state error and the Thread never changes state
again — guest execution is never resumed. -/
theorem enter_after_exited_always_errors (s : ThreadState) (evs : List GuestEvent)
    (h : s.phase = ThreadPhase.exited) :
    (runThread s evs).1 = (evs.map fun _ => Except.error EnterError.terminalState) ∧
      (runThread s evs).2 = s := by
  rw [runThread_exited evs s h]
  exact ⟨rfl, rfl⟩

/-- A Thread that has already reached the terminal phase. -/
def exitedThread : ThreadState :=
  { phase := ThreadPhase.exited, block := { req := none, ret := none } }

/-- Witness for C6: two further `enter` calls on an exited Thread both
fail with the terminal-state error and leave the state untouched. -/
theorem enter_after_exited_always_errors_witness :
    exitedThread.phase = ThreadPhase.exited ∧
      ((runThread exitedThread [GuestEvent.internal, GuestEvent.syscall ⟨0, []⟩]).1 =
          [Except.error EnterError.terminalState, Except.error EnterError.terminalState] ∧
        (runThread exitedThread [GuestEvent.internal, GuestEvent.syscall ⟨0, []⟩]).2 =
          exitedThread) :=
  ⟨rfl, enter_after_exited_always_errors exitedThread
    [GuestEvent.internal, GuestEvent.syscall ⟨0, []⟩] rfl⟩

/-- The syscall request carried by one `enter` result, when there is one. -/
def cmdReq : Except EnterError Command → Option SyscallReq
  | Except.ok (Command.SysCall b) => b.req
  | Except.ok Command.Continue => none
  | Except.error _ => none

/-- The sequence of syscall requests the host services, in the order the
`SysCall` commands come back from successive `enter` calls. -/
def syscallsOf (rs : List (Except EnterError Command)) : List SyscallReq :=
  rs.filterMap cmdReq

/-- The sequence of syscalls the guest issues, in program order, up to its
termination (after an exit or a fault the guest issues nothing further). -/
def issuedSyscalls : List GuestEvent → List SyscallReq
  | [] => []
  | GuestEvent.syscall r :: rest => r :: issuedSyscalls rest
  | GuestEvent.internal :: rest => issuedSyscalls rest
  | GuestEvent.exit _ :: _ => []
  | GuestEvent.fault :: _ => []

lemma syscallsOf_nil : syscallsOf [] = [] := rfl

lemma syscallsOf_cons (r : Except EnterError Command)
    (rs : List (Except EnterError Command)) :
    syscallsOf (r :: rs) = (cmdReq r).toList ++ syscallsOf rs := by
  simp [syscallsOf, List.filterMap_cons]
  cases h : cmdReq r <;> simp [h]

lemma syscallsOf_replicate_error (n : Nat) (e : EnterError) :
    syscallsOf (List.replicate n (Except.error e)) = [] := by
  induction n with
  | zero => rfl
  | succ k ih => simp [List.replicate_succ, syscallsOf_cons, cmdReq, ih]

/-- C7: for a single Thread that has not yet exited, the sequence of
syscalls surfaced by successive `enter` calls equals the guest's issuance
order — no request is reordered, dropped or coalesced. -/
theorem syscall_order_preserved (s : ThreadState) (evs : List GuestEvent)
    (h : s.phase ≠ ThreadPhase.exited) :
    syscallsOf (runThread s evs).1 = issuedSyscalls evs := by
  induction evs generalizing s with
  | nil => rfl
  | cons ev rest ih =>
      cases ev with
      | syscall r =>
          have hstep :
              enterStep s (GuestEvent.syscall r) =
                (Except.ok (Command.SysCall
                    { req := some r
                      ret := (if s.phase = ThreadPhase.awaitingService then
                        ({ req := none, ret := none } : Block) else s.block).ret }),
                  { phase := ThreadPhase.awaitingService
                    block :=
                      { req := some r
                        ret := (if s.phase = ThreadPhase.awaitingService then
                          ({ req := none, ret := none } : Block) else s.block).ret } }) := by
            simp [enterStep, h]
          simp [runThread, hstep, syscallsOf_cons, cmdReq, issuedSyscalls]
          exact ih _ (by simp)
      | internal =>
          have hstep :
              enterStep s GuestEvent.internal =
                (Except.ok Command.Continue,
                  { phase := ThreadPhase.ready
                    block := if s.phase = ThreadPhase.awaitingService then
                      ({ req := none, ret := none } : Block) else s.block }) := by
            simp [enterStep, h]
          simp [runThread, hstep, syscallsOf_cons, cmdReq, issuedSyscalls]
          exact ih _ (by simp)
      | exit c =>
          have hstep :
              enterStep s (GuestEvent.exit c) =
                (Except.ok Command.Continue,
                  { phase := ThreadPhase.exited
                    block := if s.phase = ThreadPhase.awaitingService then
                      ({ req := none, ret := none } : Block) else s.block }) := by
            simp [enterStep, h]
          simp [runThread, hstep, syscallsOf_cons, cmdReq, issuedSyscalls]
          rw [runThread_exited rest _ rfl]
          simp [syscallsOf_replicate_error]
      | fault =>
          have hstep :
              enterStep s GuestEvent.fault =
                (Except.error EnterError.fault,
                  { phase := ThreadPhase.exited
                    block := if s.phase = ThreadPhase.awaitingService then
                      ({ req := none, ret := none } : Block) else s.block }) := by
            simp [enterStep, h]
          simp [runThread, hstep, syscallsOf_cons, cmdReq, issuedSyscalls]
          rw [runThread_exited rest _ rfl]
          simp [syscallsOf_replicate_error]

/-- A guest trace for the ordering witness: open, write, close, then exit. -/
def demoEvents : List GuestEvent :=
  [GuestEvent.syscall ⟨2, [7]⟩, GuestEvent.internal, GuestEvent.syscall ⟨1, [3]⟩,
    GuestEvent.syscall ⟨3, []⟩, GuestEvent.exit 0, GuestEvent.syscall ⟨9, []⟩]

/-- Witness for C7 on a concrete trace from a fresh Thread. -/
theorem syscall_order_preserved_witness :
    initialThread.phase ≠ ThreadPhase.exited ∧
      syscallsOf (runThread initialThread demoEvents).1 = issuedSyscalls demoEvents :=
  ⟨by decide, syscall_order_preserved initialThread demoEvents (by decide)⟩

/-- Modelled from the spec: the run-loop invariant tying the Shared
Syscall Block to the Thread's phase — the block holds a request exactly
while the Thread awaits host service. -/
def blockInv (s : ThreadState) : Prop :=
  s.block.req.isSome = true ↔ s.phase = ThreadPhase.awaitingService

lemma blockInv_step (s : ThreadState) (ev : GuestEvent) (h : blockInv s) :
    blockInv (enterStep s ev).2 := by
  unfold blockInv at h ⊢
  by_cases hex : s.phase = ThreadPhase.exited
  · simpa [enterStep, hex] using h
  · by_cases hw : s.phase = ThreadPhase.awaitingService
    · cases ev <;> simp [enterStep, hex, hw]
    · have hnone : s.block.req.isSome = false := by
        cases hreq : s.block.req.isSome with
        | false => rfl
        | true => exact absurd (h.mp hreq) hw
      cases ev <;> simp [enterStep, hex, hw, hnone]

lemma blockInv_run (evs : List GuestEvent) :
    ∀ s, blockInv s → blockInv (runThread s evs).2 := by
  induction evs with
  | nil => intro s h; exact h
  | cons ev rest ih =>
      intro s h
      exact ih (enterStep s ev).2 (blockInv_step s ev h)

/-- C8: along every `enter` trace from a fresh Thread, the Shared Syscall
Block holds a request exactly while the Thread is awaiting host service —
so it holds at most one outstanding request at any instant, and each
request is consumed by the host-serviced resume before the guest can issue
a new one. -/
theorem shared_block_at_most_one_request (evs : List GuestEvent) :
    (runThread initialThread evs).2.block.req.isSome = true ↔
      (runThread initialThread evs).2.phase = ThreadPhase.awaitingService :=
  blockInv_run evs initialThread (by simp [blockInv, initialThread])

/-- Modelled from the spec: the shared-ownership state of one Keep under
atomic reference counting (§9, and the `self: Arc<Self>` receiver of
`Keep::add_thread` in `src/backend/mod.rs`): the number of live shared
references, how many of them are held by spawned Threads, and whether the
underlying hardware resources have been released. -/
structure KeepState where
  refCount : Nat
  liveThreads : Nat
  released : Bool

/-- Modelled from the spec: the ownership events on one Keep — cloning a
host-side handle, `add_thread` storing a shared reference in the new
Thread, dropping a Thread (releasing its reference), and dropping a
host-side handle. -/
inductive KeepOp where
  | cloneHandle
  | addThread
  | dropThread
  | dropHandle

/-- Modelled from the spec: one ownership event.  A non-Thread handle
exists while `liveThreads < refCount`; the last dropped reference releases
the Keep's resources. -/
def keepStep (s : KeepState) (op : KeepOp) : KeepState :=
  if s.released = true then s
  else
    match op with
    | KeepOp.cloneHandle =>
        if s.liveThreads < s.refCount then { s with refCount := s.refCount + 1 }
        else s
    | KeepOp.addThread =>
        if s.liveThreads < s.refCount then
          { s with refCount := s.refCount + 1, liveThreads := s.liveThreads + 1 }
        else s
    | KeepOp.dropThread =>
        if 0 < s.liveThreads then
          { refCount := s.refCount - 1, liveThreads := s.liveThreads - 1
            released := decide (s.refCount - 1 = 0) }
        else s
    | KeepOp.dropHandle =>
        if s.liveThreads < s.refCount then
          { refCount := s.refCount - 1, liveThreads := s.liveThreads
            released := decide (s.refCount - 1 = 0) }
        else s

/-- Run a sequence of ownership events on a Keep. -/
def runKeep : KeepState → List KeepOp → KeepState
  | s, [] => s
  | s, op :: rest => runKeep (keepStep s op) rest

/-- The Keep as `Backend::build` returns it: one shared reference (the
caller's `Arc`), no Threads, resources held. -/
def initialKeep : KeepState :=
  { refCount := 1, liveThreads := 0, released := false }

/-- The ownership invariant: Threads never hold more references than
exist, and resources are released only once the count reaches zero. -/
def keepInv (s : KeepState) : Prop :=
  s.liveThreads ≤ s.refCount ∧ (s.released = true → s.refCount = 0)

lemma keepInv_step (s : KeepState) (op : KeepOp) (h : keepInv s) :
    keepInv (keepStep s op) := by
  obtain ⟨hle, hrel⟩ := h
  unfold keepStep
  by_cases hr : s.released = true
  · simp [hr]
    exact ⟨hle, hrel⟩
  · cases op <;> simp [hr, keepInv] <;> split <;>
      simp_all [keepInv] <;> omega

lemma keepInv_run (ops : List KeepOp) :
    ∀ s, keepInv s → keepInv (runKeep s ops) := by
  induction ops with
  | nil => intro s h; exact h
  | cons op rest ih =>
      intro s h
      exact ih (keepStep s op) (keepInv_step s op h)

/-- C9: along every sequence of ownership events from a freshly built
Keep, the Threads' shared references are part of the reference count, and
the Keep's resources are released only once the count — including every
reference held by a spawned Thread — has dropped to zero; in particular no
Thread is live once the Keep is released, so the Keep outlives every
Thread it spawned. -/
theorem keep_outlives_threads (ops : List KeepOp) :
    (runKeep initialKeep ops).liveThreads ≤ (runKeep initialKeep ops).refCount ∧
      ((runKeep initialKeep ops).released = false ∨
        ((runKeep initialKeep ops).refCount = 0 ∧
          (runKeep initialKeep ops).liveThreads = 0)) := by
  have h := keepInv_run ops initialKeep (by simp [keepInv, initialKeep])
  obtain ⟨hle, hrel⟩ := h
  refine ⟨hle, ?_⟩
  cases hr : (runKeep initialKeep ops).released with
  | false => exact Or.inl rfl
  | true =>
      have h0 := hrel hr
      exact Or.inr ⟨h0, by omega⟩
